import Mathlib

/-!
Verification of the jetrix Tetris engine (`src/js/tetris.js`) against its
natural-language specification.

The JavaScript `Game` class is shallowly embedded: the board is a list of
rows of cells (a cell is a `Nat`, `0` = empty, nonzero values stand for the
opaque color strings, whose only observable uses are truthiness and being
written on lock), piece coordinates are integers (pieces may sit partially
above the board, so `y` may interact with negative board rows), and
`Math.random()` is modelled by an arbitrary stream `R : Nat → Nat` of
choices consumed one call at a time (the JS value `Math.floor(r * (i+1))`
with `r` uniform in `[0,1)` has support `[0,i]`, modelled as `R k % (i+1)`).

Board dimensions are the source's `CONFIG.BOARD_WIDTH = 10` and
`CONFIG.BOARD_HEIGHT = 20`.
-/

namespace Jetrix

/-- The seven tetromino types (`TETROMINOS` keys in `tetris.js`). -/
inductive PieceType where
  | I | O | T | S | Z | J | L
deriving DecidableEq, Repr

/-- A board cell: `0` is empty, a nonzero value stands for a color string. -/
abbrev Cell := Nat

abbrev Row := List Cell

abbrev Board := List Row

/-- `CONFIG.BOARD_WIDTH`. -/
def boardWidth : Nat := 10

/-- `CONFIG.BOARD_HEIGHT`. -/
def boardHeight : Nat := 20

/-- `CONFIG.LOCK_DELAY` (milliseconds). -/
def lockDelay : Nat := 500

/-- Base shape matrices of `TETROMINOS` (cells 0/1, square bounding boxes). -/
def tetrominoShape : PieceType → List (List Nat)
  | .I => [[0,0,0,0], [1,1,1,1], [0,0,0,0], [0,0,0,0]]
  | .O => [[1,1], [1,1]]
  | .T => [[0,1,0], [1,1,1], [0,0,0]]
  | .S => [[0,1,1], [1,1,0], [0,0,0]]
  | .Z => [[1,1,0], [0,1,1], [0,0,0]]
  | .J => [[1,0,0], [1,1,1], [0,0,0]]
  | .L => [[0,0,1], [1,1,1], [0,0,0]]

/-- The color strings of `TETROMINOS`, encoded as distinct nonzero cell
values (only truthiness and identity of a color are ever observed). -/
def tetrominoColor : PieceType → Nat
  | .I => 1 | .O => 2 | .T => 3 | .S => 4 | .Z => 5 | .J => 6 | .L => 7

/-- Read board cell `board[y][x]`.  In JS, out-of-range or negative indices
read `undefined`, which is falsy exactly like an empty cell; all in-code
reads are guarded so that only in-range cells are ever consulted. -/
def cellAt (b : Board) (y x : Int) : Cell :=
  if 0 ≤ y ∧ 0 ≤ x then (b.getD y.toNat []).getD x.toNat 0 else 0

/-- Write board cell `board[y][x] = c`.  A negative JS array index becomes
an ordinary object property and leaves the grid cells untouched, hence the
guard; `List.set` is likewise a no-op beyond the list length. -/
def setCell (b : Board) (y x : Int) (c : Cell) : Board :=
  if 0 ≤ y ∧ 0 ≤ x then b.set y.toNat ((b.getD y.toNat []).set x.toNat c) else b

/-- `Game.isValidPosition(x, y, shape)` (`tetris.js:330-351`): every filled
shape cell must map inside `[0,width)` horizontally and above `height`
vertically, and when its row is on the board (`boardY ≥ 0`) the target cell
must be empty. -/
def isValidPosition (board : Board) (x y : Int) (shape : List (List Nat)) : Bool :=
  shape.enum.all fun ir =>
    ir.2.enum.all fun jv =>
      if jv.2 ≠ 0 then
        let boardX : Int := x + jv.1
        let boardY : Int := y + ir.1
        if boardX < 0 ∨ (boardWidth : Int) ≤ boardX ∨ (boardHeight : Int) ≤ boardY then
          false
        else if 0 ≤ boardY ∧ cellAt board boardY boardX ≠ 0 then
          false
        else
          true
      else
        true

/-- The violation predicate of the specification for `isValidPosition`:
some filled shape cell maps to `boardX < 0`, `boardX ≥ width`,
`boardY ≥ height`, or (with `boardY ≥ 0`) onto a non-empty board cell. -/
def Violates (board : Board) (x y : Int) (shape : List (List Nat)) : Prop :=
  ∃ (i j : Nat) (r : List Nat) (v : Nat), shape[i]? = some r ∧ r[j]? = some v ∧ v ≠ 0 ∧
    (x + (j : Int) < 0 ∨ (boardWidth : Int) ≤ x + j ∨ (boardHeight : Int) ≤ y + i ∨
      (0 ≤ y + (i : Int) ∧ cellAt board (y + i) (x + j) ≠ 0))

theorem mem_enum_iff {α : Type} {l : List α} {p : Nat × α} :
    p ∈ l.enum ↔ l[p.1]? = some p.2 := by
  obtain ⟨i, a⟩ := p
  simp [List.mk_mem_enum_iff_getElem?]

theorem isValidPosition_eq_true_iff (board : Board) (x y : Int)
    (shape : List (List Nat)) :
    isValidPosition board x y shape = true ↔
      ∀ (i j : Nat) (r : List Nat) (v : Nat), shape[i]? = some r → r[j]? = some v →
        v ≠ 0 →
        ¬(x + (j : Int) < 0 ∨ (boardWidth : Int) ≤ x + j ∨ (boardHeight : Int) ≤ y + i) ∧
        ¬(0 ≤ y + (i : Int) ∧ cellAt board (y + i) (x + j) ≠ 0) := by
  rw [isValidPosition, List.all_eq_true]
  constructor
  · intro h i j r v hir hjv hv
    have h1 := h (i, r) (mem_enum_iff.mpr hir)
    rw [List.all_eq_true] at h1
    have h2 := h1 (j, v) (mem_enum_iff.mpr hjv)
    simp only [if_pos hv] at h2
    have hP : ¬(x + (j : Int) < 0 ∨ (boardWidth : Int) ≤ x + j ∨
        (boardHeight : Int) ≤ y + i) := by
      intro hP
      rw [if_pos hP] at h2
      simp at h2
    refine ⟨hP, fun hQ => ?_⟩
    rw [if_neg hP, if_pos hQ] at h2
    simp at h2
  · intro h ir hir
    rw [List.all_eq_true]
    intro jv hjv
    obtain ⟨i, r⟩ := ir
    obtain ⟨j, v⟩ := jv
    rw [mem_enum_iff] at hir hjv
    by_cases hv : v ≠ 0
    · have := h i j r v hir hjv hv
      simp only [if_pos hv, if_neg this.1, if_neg this.2]
    · simp only [if_neg hv]

/-- **C1**: for every board whose rows all have exactly `boardWidth` cells,
`isValidPosition` returns `false` iff at least one filled cell of the shape
maps to `boardX < 0`, `boardX ≥ width`, `boardY ≥ height`, or (with
`boardY ≥ 0`) onto a non-empty board cell. -/
theorem isValidPosition_false_iff (board : Board) (x y : Int)
    (shape : List (List Nat)) (_hb : ∀ r ∈ board, r.length = boardWidth) :
    isValidPosition board x y shape = false ↔ Violates board x y shape := by
  clear _hb
  rw [← Bool.not_eq_true, isValidPosition_eq_true_iff, Violates]
  constructor
  · intro h
    by_contra hn
    apply h
    intro i j r v h1 h2 h3
    constructor
    · intro hP
      rcases hP with hA | hB | hC
      · exact hn ⟨i, j, r, v, h1, h2, h3, Or.inl hA⟩
      · exact hn ⟨i, j, r, v, h1, h2, h3, Or.inr (Or.inl hB)⟩
      · exact hn ⟨i, j, r, v, h1, h2, h3, Or.inr (Or.inr (Or.inl hC))⟩
    · intro hQ
      exact hn ⟨i, j, r, v, h1, h2, h3, Or.inr (Or.inr (Or.inr hQ))⟩
  · rintro ⟨i, j, r, v, h1, h2, h3, h4⟩ hall
    obtain ⟨hP, hQ⟩ := hall i j r v h1 h2 h3
    rcases h4 with h | h | h | h
    · exact hP (Or.inl h)
    · exact hP (Or.inr (Or.inl h))
    · exact hP (Or.inr (Or.inr h))
    · exact hQ h

/-- A concrete board: empty except cell `(row 5, col 2)` filled. -/
def demoBoard : Board :=
  (List.replicate 5 (List.replicate boardWidth 0)) ++
    [[0, 0, 9, 0, 0, 0, 0, 0, 0, 0]] ++
    (List.replicate 14 (List.replicate boardWidth 0))

/-- Witness for C1 at a concrete input: the T piece at `(1, 4)` overlaps the
filled cell `(5, 2)` of `demoBoard`, so `isValidPosition` is `false` and a
violation exists. -/
theorem isValidPosition_false_iff_witness :
    isValidPosition demoBoard 1 4 (tetrominoShape .T) = false ↔
      Violates demoBoard 1 4 (tetrominoShape .T) :=
  isValidPosition_false_iff demoBoard 1 4 (tetrominoShape .T) (by decide)

/-! ## Line clearing (`Game.clearLines`, `tetris.js:552-588`) -/

/-- An empty board row (`Array(CONFIG.BOARD_WIDTH).fill(0)`). -/
def emptyRow : Row := List.replicate boardWidth 0

/-- `this.board[row].every(cell => cell !== 0)`. -/
def isCompleteRow (r : Row) : Bool := r.all fun c => c ≠ 0

/-- The `clearLines` row loop.  The JS loop walks the row index from
`BOARD_HEIGHT - 1` down to `0` over the in-place mutated board; on a
complete row it splices the row out, unshifts an empty row at the top and
re-checks the same index (`row++` before the loop's `row--`).  Splitting
the board at the scanned index (rows at larger indices are the
already-scanned `back`, in order) and keeping the not-yet-scanned prefix
reversed (scanned end first) turns that walk into this recursion: a
complete row is dropped and the unshifted empty row is appended at the far
(top) end of the pending prefix, re-checking the row that shifted into the
index.  Each step shrinks `2 * (complete rows in the prefix) + (prefix
length)` — the unshifted empty row is never complete (`boardWidth > 0`) —
so any `fuel` at least that measure makes the recursion run the full loop
(`clearAux_eq` below is proved under exactly this bound). -/
def clearAux : Nat → List Row → List Row → Nat → List Row × Nat
  | _, [], back, c => (back, c)
  | 0, l, back, c => (l.reverse ++ back, c)
  | fuel + 1, row :: rest, back, c =>
    if isCompleteRow row then
      clearAux fuel (rest ++ [emptyRow]) back (c + 1)
    else
      clearAux fuel rest (row :: back) c

/-- The board/count part of `Game.clearLines`: scan all rows (the board
invariably has `boardHeight` rows, so the loop start index `BOARD_HEIGHT-1`
is the last index), returning the compacted board and the number of rows
cleared.  `3 * b.length` dominates the loop measure `2 * completeCount +
length`. -/
def clearLinesBoard (b : Board) : List Row × Nat :=
  clearAux (3 * b.length) b.reverse [] 0

theorem replicate_append_cons {α : Type} (k : Nat) (a : α) (X : List α) :
    List.replicate k a ++ a :: X = List.replicate (k + 1) a ++ X := by
  rw [List.replicate_succ', List.append_assoc]
  rfl

theorem clearAux_eq (fuel : Nat) (l back : List Row) (c : Nat)
    (hfuel : 2 * l.countP (fun r => isCompleteRow r) + l.length ≤ fuel) :
    clearAux fuel l back c =
      (List.replicate (l.countP (fun r => isCompleteRow r)) emptyRow ++
        l.reverse.filter (fun r => !isCompleteRow r) ++ back,
       c + l.countP (fun r => isCompleteRow r)) := by
  induction fuel generalizing l back c with
  | zero =>
    have hl : l = [] := by
      cases l with
      | nil => rfl
      | cons a t => simp at hfuel
    subst hl
    simp [clearAux]
  | succ fuel ih =>
    cases l with
    | nil => simp [clearAux]
    | cons row rest =>
      have hempty : isCompleteRow emptyRow = false := by decide
      by_cases hrow : isCompleteRow row = true
      · have hstep : clearAux (fuel + 1) (row :: rest) back c =
            clearAux fuel (rest ++ [emptyRow]) back (c + 1) := by
          simp [clearAux, hrow]
        have hcnt : List.countP (fun r => isCompleteRow r) (row :: rest) =
            List.countP (fun r => isCompleteRow r) rest + 1 :=
          List.countP_cons_of_pos _ _ hrow
        have h1 : List.countP (fun r => isCompleteRow r) (rest ++ [emptyRow]) =
            List.countP (fun r => isCompleteRow r) rest := by
          simp [List.countP_append, hempty]
        have hbound : 2 * List.countP (fun r => isCompleteRow r) (rest ++ [emptyRow]) +
            (rest ++ [emptyRow]).length ≤ fuel := by
          rw [h1, List.length_append]
          rw [hcnt, List.length_cons] at hfuel
          simp only [List.length_cons, List.length_nil]
          omega
        rw [hstep, ih _ _ _ hbound]
        have h2 : ((rest ++ [emptyRow]).reverse).filter (fun r => !isCompleteRow r) =
            emptyRow :: (rest.reverse).filter (fun r => !isCompleteRow r) := by
          simp [List.reverse_append, List.filter_cons, hempty]
        have h3 : (((row :: rest)).reverse).filter (fun r => !isCompleteRow r) =
            (rest.reverse).filter (fun r => !isCompleteRow r) := by
          simp [List.reverse_cons, List.filter_append, List.filter_cons, hrow]
        rw [h1, h2, h3, hcnt, Prod.mk.injEq]
        refine ⟨?_, ?_⟩
        · rw [replicate_append_cons]
        · omega
      · have hrow' : isCompleteRow row = false := by
          rwa [Bool.not_eq_true] at hrow
        have hstep : clearAux (fuel + 1) (row :: rest) back c =
            clearAux fuel rest (row :: back) c := by
          simp [clearAux, hrow']
        have hcnt : List.countP (fun r => isCompleteRow r) (row :: rest) =
            List.countP (fun r => isCompleteRow r) rest := by
          simp [List.countP_cons, hrow']
        have hbound : 2 * List.countP (fun r => isCompleteRow r) rest + rest.length ≤ fuel := by
          rw [hcnt, List.length_cons] at hfuel
          omega
        rw [hstep, ih _ _ _ hbound]
        have h3 : (((row :: rest)).reverse).filter (fun r => !isCompleteRow r) =
            (rest.reverse).filter (fun r => !isCompleteRow r) ++ [row] := by
          simp [List.reverse_cons, List.filter_append, List.filter_cons, hrow']
        rw [h3, hcnt, Prod.mk.injEq]
        refine ⟨?_, ?_⟩
        · simp [List.append_assoc]
        · rfl

/-- **C4**: `clearLines` removes each complete row (adjacent complete rows
are not skipped) and inserts one empty row at the top per cleared row,
preserving the relative order of the remaining rows and returning the
number of rows cleared; in particular, on a board with exactly one
fully-filled row it returns `1` and the resulting board is a new empty row
at index `0` followed by all other original rows in order. -/
theorem clearLines_spec (b : Board) :
    clearLinesBoard b =
      (List.replicate (b.countP (fun r => isCompleteRow r)) emptyRow ++
        b.filter (fun r => !isCompleteRow r),
       b.countP (fun r => isCompleteRow r)) ∧
    (b.countP (fun r => isCompleteRow r) = 1 →
      (clearLinesBoard b).2 = 1 ∧
      (clearLinesBoard b).1 = emptyRow :: b.filter (fun r => !isCompleteRow r)) := by
  have hmain : clearLinesBoard b =
      (List.replicate (b.countP (fun r => isCompleteRow r)) emptyRow ++
        b.filter (fun r => !isCompleteRow r),
       b.countP (fun r => isCompleteRow r)) := by
    have hbound : 2 * List.countP (fun r => isCompleteRow r) b.reverse +
        b.reverse.length ≤ 3 * b.length := by
      have h1 : List.countP (fun r => isCompleteRow r) b.reverse ≤ b.reverse.length :=
        List.countP_le_length _
      rw [List.length_reverse] at h1 ⊢
      omega
    rw [clearLinesBoard, clearAux_eq _ _ _ _ hbound]
    simp [List.countP_reverse, List.reverse_reverse]
  refine ⟨hmain, fun h1 => ?_⟩
  rw [hmain, h1]
  simp [List.replicate]

/-- Witness for C4's single-full-row part: a 20-row board whose row 17 is
completely filled clears exactly that row. -/
def oneFullRowBoard : Board :=
  (List.replicate 17 emptyRow) ++ [List.replicate boardWidth 3] ++
    [[0,0,0,0,0,0,0,4,4,4], [0,0,0,0,0,0,0,0,5,5]]

theorem clearLines_spec_witness :
    (clearLinesBoard oneFullRowBoard).2 = 1 ∧
    (clearLinesBoard oneFullRowBoard).1 =
      emptyRow :: oneFullRowBoard.filter (fun r => !isCompleteRow r) :=
  (clearLines_spec oneFullRowBoard).2 (by decide)

/-! ## Matrix rotation (`Game.rotateMatrix`, `tetris.js:431-446`) -/

/-- `Game.rotateMatrix(matrix, clockwise)`: builds an `n × n` matrix
(`n = matrix.length`) with `rotated[j][n-1-i] = matrix[i][j]` (clockwise)
or `rotated[n-1-j][i] = matrix[i][j]` (counter-clockwise).  The source
assigns every target cell exactly once (the index map is a bijection of
`[0,n)²`), so the result cell at `(r, c)` is `matrix[n-1-c][r]`
(clockwise) resp. `matrix[c][n-1-r]` (counter-clockwise); reads outside
the matrix (only possible on non-square input) give the zero the target
matrix was initialised with. -/
def rotateMatrix (m : List (List Nat)) (cw : Bool) : List (List Nat) :=
  let n := m.length
  (List.range n).map fun r =>
    (List.range n).map fun c =>
      if cw then (m.getD (n - 1 - c) []).getD r 0
      else (m.getD c []).getD (m.length - 1 - r) 0

/-- Total cell read of a shape matrix. -/
def matEntry (m : List (List Nat)) (r c : Nat) : Nat := (m.getD r []).getD c 0

theorem rotateMatrix_length (m : List (List Nat)) (cw : Bool) :
    (rotateMatrix m cw).length = m.length := by
  simp [rotateMatrix]

theorem rotateMatrix_square (m : List (List Nat)) (cw : Bool) :
    ∀ row ∈ rotateMatrix m cw, row.length = (rotateMatrix m cw).length := by
  intro row hrow
  rw [rotateMatrix_length]
  simp only [rotateMatrix, List.mem_map] at hrow
  obtain ⟨r, _, rfl⟩ := hrow
  simp

theorem map_range_getD {α : Type} (n : Nat) (f : Nat → α) (d : α) (i : Nat)
    (hi : i < n) : ((List.range n).map f).getD i d = f i := by
  rw [List.getD_eq_getElem?_getD, List.getElem?_map, List.getElem?_range hi]
  rfl

theorem matEntry_rotate_cw (m : List (List Nat)) (r c : Nat)
    (hr : r < m.length) (hc : c < m.length) :
    matEntry (rotateMatrix m true) r c = matEntry m (m.length - 1 - c) r := by
  have hdef : rotateMatrix m true = (List.range m.length).map fun r =>
      (List.range m.length).map fun c => (m.getD (m.length - 1 - c) []).getD r 0 := rfl
  rw [matEntry, hdef, map_range_getD _ _ _ _ hr, map_range_getD _ _ _ _ hc, matEntry]

theorem matEntry_rotate_ccw (m : List (List Nat)) (r c : Nat)
    (hr : r < m.length) (hc : c < m.length) :
    matEntry (rotateMatrix m false) r c = matEntry m c (m.length - 1 - r) := by
  have hdef : rotateMatrix m false = (List.range m.length).map fun r =>
      (List.range m.length).map fun c => (m.getD c []).getD (m.length - 1 - r) 0 := rfl
  rw [matEntry, hdef, map_range_getD _ _ _ _ hr, map_range_getD _ _ _ _ hc, matEntry]

theorem square_ext {m₁ m₂ : List (List Nat)} (h1 : m₁.length = m₂.length)
    (hsq1 : ∀ r ∈ m₁, r.length = m₁.length) (hsq2 : ∀ r ∈ m₂, r.length = m₂.length)
    (he : ∀ r c, r < m₁.length → c < m₁.length → matEntry m₁ r c = matEntry m₂ r c) :
    m₁ = m₂ := by
  apply List.ext_getElem h1
  intro i h1i h2i
  have hr1 : m₁[i].length = m₁.length := hsq1 _ (List.getElem_mem h1i)
  have hr2 : m₂[i].length = m₂.length := hsq2 _ (List.getElem_mem h2i)
  apply List.ext_getElem (by omega)
  intro j hj1 hj2
  have h := he i j h1i (by omega)
  rw [matEntry, matEntry, List.getD_eq_getElem _ _ h1i, List.getD_eq_getElem _ _ h2i,
    List.getD_eq_getElem _ _ hj1, List.getD_eq_getElem _ _ hj2] at h
  exact h

/-- Four-fold 90°-rotation is the identity on square matrices. -/
theorem rotateMatrix_four (m : List (List Nat)) (cw : Bool)
    (hsq : ∀ r ∈ m, r.length = m.length) :
    rotateMatrix (rotateMatrix (rotateMatrix (rotateMatrix m cw) cw) cw) cw = m := by
  have hl1 : (rotateMatrix m cw).length = m.length := rotateMatrix_length m cw
  have hl2 : (rotateMatrix (rotateMatrix m cw) cw).length = m.length := by
    rw [rotateMatrix_length, hl1]
  have hl3 : (rotateMatrix (rotateMatrix (rotateMatrix m cw) cw) cw).length = m.length := by
    rw [rotateMatrix_length, hl2]
  have hl4 : (rotateMatrix (rotateMatrix (rotateMatrix (rotateMatrix m cw) cw) cw) cw).length
      = m.length := by
    rw [rotateMatrix_length, hl3]
  apply square_ext (by rw [hl4]) (rotateMatrix_square _ cw) hsq
  intro r c hr hc
  rw [hl4] at hr hc
  cases cw with
  | true =>
    rw [matEntry_rotate_cw _ r c (by rw [hl3]; exact hr) (by rw [hl3]; exact hc), hl3]
    rw [matEntry_rotate_cw _ (m.length - 1 - c) r (by rw [hl2]; omega)
      (by rw [hl2]; exact hr), hl2]
    rw [matEntry_rotate_cw _ (m.length - 1 - r) (m.length - 1 - c) (by rw [hl1]; omega)
      (by rw [hl1]; omega), hl1]
    rw [matEntry_rotate_cw _ (m.length - 1 - (m.length - 1 - c)) (m.length - 1 - r)
      (by omega) (by omega)]
    congr 1 <;> omega
  | false =>
    rw [matEntry_rotate_ccw _ r c (by rw [hl3]; exact hr) (by rw [hl3]; exact hc), hl3]
    rw [matEntry_rotate_ccw _ c (m.length - 1 - r) (by rw [hl2]; exact hc)
      (by rw [hl2]; omega), hl2]
    rw [matEntry_rotate_ccw _ (m.length - 1 - r) (m.length - 1 - c) (by rw [hl1]; omega)
      (by rw [hl1]; omega), hl1]
    rw [matEntry_rotate_ccw _ (m.length - 1 - c) (m.length - 1 - (m.length - 1 - r))
      (by omega) (by omega)]
    congr 1 <;> omega

/-! ## Game state and operations (`Game`, `tetris.js`)

Purely visual collaborators (`renderer`, `playSound`, DOM display updates,
highscore submission) mutate no game state and are omitted.  Wall-clock
timestamps (`stats.startTime/endTime`) are likewise outside the model.
Timer values are kept in hundredths of a millisecond so that the frame
delta `16.67` is the integer `1667`; for the integer drop-speed thresholds
of `CONFIG` the comparisons agree with JS float arithmetic.  -/

/-- Difficulty modes of `CONFIG.DIFFICULTY`. -/
inductive GameMode where
  | easy | normal | hard | extreme
deriving DecidableEq, Repr

/-- `CONFIG.DIFFICULTY[mode].speed` (ms). -/
def difficultySpeed : GameMode → Nat
  | .easy => 1000 | .normal => 800 | .hard => 600 | .extreme => 400

/-- `CONFIG.DIFFICULTY[mode].levelSpeed` (ms per level). -/
def difficultyLevelSpeed : GameMode → Nat
  | .easy => 80 | .normal => 60 | .hard => 40 | .extreme => 20

/-- The active piece (`this.currentPiece`). -/
structure Piece where
  type : PieceType
  shape : List (List Nat)
  color : Nat
  x : Int
  y : Int
  rotation : Nat
deriving DecidableEq, Repr

/-- `this.stats` (wall-clock times omitted). -/
structure Stats where
  piecesPlaced : Nat
  tSpins : Nat
  maxCombo : Nat
deriving DecidableEq, Repr

/-- The mutable `Game` fields the engine logic reads or writes.
`randIdx` counts the `Math.random()` calls consumed so far; the random
stream is an explicit parameter `R : Nat → Nat` of the operations that may
draw from the bag. -/
structure GameState where
  board : Board
  currentPiece : Option Piece
  nextPieces : List PieceType
  holdPiece : Option PieceType
  canHold : Bool
  score : Nat
  level : Nat
  lines : Nat
  combo : Nat
  gameMode : GameMode
  isPlaying : Bool
  isPaused : Bool
  isGameOver : Bool
  dropTimer : Nat
  lockTimer : Nat
  bag : List PieceType
  randIdx : Nat
  stats : Stats
deriving DecidableEq, Repr

/-- `Game.getDropSpeed` (`tetris.js:284-289`), in ms.  JS computes
`max(50, base - dec)`; for `base - dec < 0` it yields 50, as does the
truncated `Nat` subtraction here. -/
def getDropSpeed (s : GameState) : Nat :=
  max 50 (difficultySpeed s.gameMode - difficultyLevelSpeed s.gameMode * (s.level - 1))

/-- `['I', 'O', 'T', 'S', 'Z', 'J', 'L']`, the bag refill (`tetris.js:294`). -/
def canonicalBag : List PieceType := [.I, .O, .T, .S, .Z, .J, .L]

/-- The destructuring swap `[bag[i], bag[j]] = [bag[j], bag[i]]`. -/
def swapAt (l : List PieceType) (i j : Nat) : List PieceType :=
  (l.set i (l.getD j .I)).set j (l.getD i .I)

/-- The Fisher–Yates loop of `getNextFromBag` (`tetris.js:296-299`): for
`i` from `bag.length - 1` down to `1`, swap index `i` with a random index
`j ∈ [0, i]`.  `Math.floor(Math.random() * (i + 1))` is modelled by the
next stream value `R k` reduced mod `i + 1`, which has the same support. -/
def shuffleLoop (R : Nat → Nat) (k : Nat) (bag : List PieceType) :
    Nat → List PieceType × Nat
  | 0 => (bag, k)
  | m + 1 => shuffleLoop R (k + 1) (swapAt bag (m + 1) (R k % (m + 2))) m

/-- `Game.getNextFromBag` (`tetris.js:291-302`): refill and shuffle when
the working bag is empty, then `pop()` (remove and return the last
element).  The popped bag is never empty in the code (a refill inserts 7
pieces), so the `getLastD` default is never read. -/
def getNextFromBag (R : Nat → Nat) (bag : List PieceType) (k : Nat) :
    PieceType × List PieceType × Nat :=
  let refilled := if bag.isEmpty then
      shuffleLoop R k canonicalBag (canonicalBag.length - 1)
    else (bag, k)
  (refilled.1.getLastD .I, refilled.1.dropLast, refilled.2)

/-- `this.isGameOver = true; this.isPlaying = false` from `Game.gameOver`
(`tetris.js:641-675`); score submission and DOM effects are external. -/
def gameOverState (s : GameState) : GameState :=
  { s with isGameOver := true, isPlaying := false }

/-- `Game.spawnPiece` (`tetris.js:304-328`): shift the queue head, append
a fresh bag draw, centre the piece at the top, flag game over if the spawn
position is invalid, then re-enable hold and reset both timers.  A shift
on an empty queue would crash the JS (`TETROMINOS[undefined]`); the queue
always holds 3 pieces, so the `headD` default is never read. -/
def spawnPiece (R : Nat → Nat) (s : GameState) : GameState :=
  let t := s.nextPieces.headD .I
  let rest := s.nextPieces.tail
  let drawn := getNextFromBag R s.bag s.randIdx
  let shape := tetrominoShape t
  let p : Piece := { type := t, shape := shape, color := tetrominoColor t,
                     x := ((boardWidth - (shape.headD []).length) / 2 : Nat), y := 0,
                     rotation := 0 }
  let s1 := { s with currentPiece := some p, nextPieces := rest ++ [drawn.1],
                     bag := drawn.2.1, randIdx := drawn.2.2 }
  let s2 := if ¬ isValidPosition s1.board p.x p.y shape then gameOverState s1 else s1
  { s2 with canHold := true, dropTimer := 0, lockTimer := 0 }

/-- `Game.moveLeft` (`tetris.js:353-362`). -/
def moveLeft (s : GameState) : Bool × GameState :=
  match s.currentPiece with
  | none => (false, s)
  | some p =>
    if s.isPaused then (false, s)
    else if isValidPosition s.board (p.x - 1) p.y p.shape then
      (true, { s with currentPiece := some { p with x := p.x - 1 }, lockTimer := 0 })
    else (false, s)

/-- `Game.moveRight` (`tetris.js:364-373`). -/
def moveRight (s : GameState) : Bool × GameState :=
  match s.currentPiece with
  | none => (false, s)
  | some p =>
    if s.isPaused then (false, s)
    else if isValidPosition s.board (p.x + 1) p.y p.shape then
      (true, { s with currentPiece := some { p with x := p.x + 1 }, lockTimer := 0 })
    else (false, s)

/-- `Game.moveDown` (`tetris.js:375-384`): on success, descend one cell
and add `CONFIG.POINTS.SOFT_DROP = 1` to the score; the lock-delay timer
is not touched. -/
def moveDown (s : GameState) : Bool × GameState :=
  match s.currentPiece with
  | none => (false, s)
  | some p =>
    if s.isPaused then (false, s)
    else if isValidPosition s.board p.x (p.y + 1) p.shape then
      (true, { s with currentPiece := some { p with y := p.y + 1 }, score := s.score + 1 })
    else (false, s)

/-- The corner test of `Game.checkTSpin` (`tetris.js:472-473`): a cell is
"blocked" when it is off a side edge, below the floor, or (if on the
board) occupied.  `x < 0` short-circuits before the board read, exactly as
in `x < 0 || ... || (y >= 0 && this.board[y][x])`. -/
def cornerBlocked (b : Board) (q : Int × Int) : Bool :=
  q.1 < 0 || (boardWidth : Int) ≤ q.1 || (boardHeight : Int) ≤ q.2 ||
    (0 ≤ q.2 && cellAt b q.2 q.1 ≠ 0)

/-- The `filledCorners` count of `Game.checkTSpin` (`tetris.js:463-476`):
blocked cells among the four diagonal neighbours of the piece's top-left
anchor `(x, y)`. -/
def anchorBlockedCount (b : Board) (x y : Int) : Nat :=
  ([(x - 1, y - 1), (x + 1, y - 1), (x - 1, y + 1), (x + 1, y + 1)] :
    List (Int × Int)).countP (cornerBlocked b)

/-- `Game.checkTSpin` (`tetris.js:459-484`): for a T piece, count the
blocked cells among the four diagonal neighbours of `(x, y)`; at 3 or
more, record a T-spin.  Only `Game.rotate` calls this, always with an
active piece, so the `none` branch is unreachable in the source. -/
def checkTSpin (s : GameState) : Bool × GameState :=
  match s.currentPiece with
  | none => (false, s)
  | some p =>
    if p.type ≠ .T then (false, s)
    else
      if 3 ≤ anchorBlockedCount s.board p.x p.y then
        (true, { s with stats := { s.stats with tSpins := s.stats.tSpins + 1 } })
      else (false, s)

/-- `Game.getWallKicks` (`tetris.js:448-457`). -/
def getWallKicks (t : PieceType) (_rot : Nat) (_cw : Bool) : List (Int × Int) :=
  if t = .I then [(-1, 0), (2, 0), (-1, 2), (2, -1)]
  else if t = .O then []
  else [(-1, 0), (1, 0), (-1, -1), (1, -1), (0, 1)]

/-- `Game.rotate` (`tetris.js:400-429`): try the rotated shape in place,
then each wall-kick offset in order; on the first success update the
piece, reset the lock-delay timer and re-run T-spin detection. -/
def rotate (s : GameState) (cw : Bool) : Bool × GameState :=
  match s.currentPiece with
  | none => (false, s)
  | some p =>
    if s.isPaused then (false, s)
    else
      let rotated := rotateMatrix p.shape cw
      if isValidPosition s.board p.x p.y rotated then
        let p1 := { p with shape := rotated,
                           rotation := (p.rotation + (if cw then 1 else 3)) % 4 }
        let s1 := { s with currentPiece := some p1, lockTimer := 0 }
        (true, (checkTSpin s1).2)
      else
        match (getWallKicks p.type p.rotation cw).find? (fun kick =>
            isValidPosition s.board (p.x + kick.1) (p.y + kick.2) rotated) with
        | some kick =>
          let p1 := { p with x := p.x + kick.1, y := p.y + kick.2, shape := rotated,
                             rotation := (p.rotation + (if cw then 1 else 3)) % 4 }
          let s1 := { s with currentPiece := some p1, lockTimer := 0 }
          (true, (checkTSpin s1).2)
        | none => (false, s)

/-- The board write loop of `Game.lockPiece` (`tetris.js:522-534`): every
filled shape cell with `boardY >= 0` receives the piece color. -/
def placePiece (b : Board) (p : Piece) : Board :=
  p.shape.enum.foldl (fun acc ir =>
    ir.2.enum.foldl (fun acc jv =>
      if jv.2 ≠ 0 then
        if 0 ≤ p.y + (ir.1 : Int) then
          setCell acc (p.y + ir.1) (p.x + jv.1) p.color
        else acc
      else acc) acc) b

/-- `Game.clearLines` (`tetris.js:552-588`) at the state level: compact
the board, then add to the line total and raise the level to
`floor(lines / 10) + 1` when that exceeds it. -/
def clearLinesState (s : GameState) : Nat × GameState :=
  let res := clearLinesBoard s.board
  if 0 < res.2 then
    let lines := s.lines + res.2
    let newLevel := lines / 10 + 1
    (res.2, { s with board := res.1, lines := lines,
                     level := if s.level < newLevel then newLevel else s.level })
  else (res.2, { s with board := res.1 })

/-- The `switch (linesCleared)` of `Game.updateScore` (`tetris.js:593-606`)
with `CONFIG.POINTS.{SINGLE,DOUBLE,TRIPLE,TETRIS}`; `points` stays 0 on the
default path. -/
def lineClearBasePoints : Nat → Nat
  | 1 => 100
  | 2 => 300
  | 3 => 500
  | 4 => 800
  | _ => 0

/-- `Game.updateScore(linesCleared)` (`tetris.js:590-618`): base points by
cleared-line count, multiplied by the current level, plus
`50 * this.combo` (`CONFIG.POINTS.COMBO_MULTIPLIER`) when the combo
counter is positive.  Note the caller (`lockPiece`) increments
`this.combo` only after this runs. -/
def updateScore (s : GameState) (linesCleared : Nat) : GameState :=
  let points := lineClearBasePoints linesCleared * s.level
  let points := if 0 < s.combo then points + 50 * s.combo else points
  { s with score := s.score + points }

/-- `Game.lockPiece` (`tetris.js:518-550`): write the piece to the board,
bump the pieces-placed counter, clear lines, update score/combo, spawn the
next piece. -/
def lockPiece (R : Nat → Nat) (s : GameState) : GameState :=
  match s.currentPiece with
  | none => s
  | some p =>
    let s1 := { s with board := placePiece s.board p,
                       stats := { s.stats with piecesPlaced := s.stats.piecesPlaced + 1 } }
    let res := clearLinesState s1
    let s2 := res.2
    let s3 :=
      if 0 < res.1 then
        let s' := updateScore s2 res.1
        let combo := s'.combo + 1
        { s' with combo := combo,
                  stats := { s'.stats with maxCombo := max s'.stats.maxCombo combo } }
      else { s2 with combo := 0 }
    spawnPiece R s3

/-- The descent loop of `Game.hardDrop` (`tetris.js:389-393`), counting
the cells travelled.  The JS `while` terminates because every catalog
shape has a filled cell (an all-zero shape would loop forever); the fuel
bounds the recursion and is large enough for any such shape. -/
def hardDropLoop (b : Board) (x : Int) (shape : List (List Nat)) (y : Int) :
    Nat → Nat
  | 0 => 0
  | fuel + 1 =>
    if isValidPosition b x (y + 1) shape then hardDropLoop b x shape (y + 1) fuel + 1
    else 0

/-- Fuel that exceeds any possible drop distance from `(x, y)`. -/
def hardDropFuel (y : Int) : Nat := boardHeight + 1 + (-y).toNat

/-- `Game.hardDrop` (`tetris.js:386-398`): descend while valid, add
`2 * distance` (`CONFIG.POINTS.HARD_DROP = 2`) to the score, then lock
immediately. -/
def hardDrop (R : Nat → Nat) (s : GameState) : GameState :=
  match s.currentPiece with
  | none => s
  | some p =>
    if s.isPaused then s
    else
      let d := hardDropLoop s.board p.x p.shape p.y (hardDropFuel p.y)
      lockPiece R { s with currentPiece := some { p with y := p.y + d },
                           score := s.score + d * 2 }

/-- `Game.hold` (`tetris.js:486-516`): with the slot occupied, swap the
active piece with the stored type, placing the swapped-in piece at the
spawn position without any validity check; with the slot empty, store the
type and spawn from the queue (which does check).  Either way hold is then
disabled until the next lock. -/
def hold (R : Nat → Nat) (s : GameState) : GameState :=
  match s.currentPiece with
  | none => s
  | some p =>
    if ¬ s.canHold ∨ s.isPaused then s
    else
      match s.holdPiece with
      | some holdType =>
        let shape := tetrominoShape holdType
        let np : Piece := { type := holdType, shape := shape,
                            color := tetrominoColor holdType,
                            x := ((boardWidth - (shape.headD []).length) / 2 : Nat),
                            y := 0, rotation := 0 }
        { s with holdPiece := some p.type, currentPiece := some np, canHold := false }
      | none =>
        let s1 := spawnPiece R { s with holdPiece := some p.type }
        { s1 with canHold := false }

/-- One frame of `Game.gameLoop` (`tetris.js:255-282`), in hundredths of a
millisecond: add the `16.67` ms frame delta to the drop timer; at the drop
interval attempt the automatic descent; on failure accumulate lock delay
and lock at `CONFIG.LOCK_DELAY`, on success zero the lock timer.
Rendering and rescheduling are external. -/
def gameLoopTick (R : Nat → Nat) (s : GameState) : GameState :=
  if ¬ s.isPlaying ∨ s.isGameOver then s
  else if s.isPaused then s
  else
    let dropSpeed := getDropSpeed s * 100
    let s1 := { s with dropTimer := s.dropTimer + 1667 }
    if dropSpeed ≤ s1.dropTimer then
      let s2 := { s1 with dropTimer := 0 }
      let moved := moveDown s2
      if ¬ moved.1 then
        let s3 := { moved.2 with lockTimer := moved.2.lockTimer + dropSpeed }
        if lockDelay * 100 ≤ s3.lockTimer then lockPiece R s3 else s3
      else { moved.2 with lockTimer := 0 }
    else s1

/-! ## Shared concrete states for witnesses and counterexamples -/

/-- A fully empty 20×10 board. -/
def emptyBoard : Board := List.replicate boardHeight emptyRow

/-- A fixed random stream (any stream works for the concrete scenarios). -/
def R0 : Nat → Nat := fun _ => 0

/-- A baseline in-game state: playing, unpaused, empty board, an I piece
at the spawn position. -/
def baseState : GameState :=
  { board := emptyBoard
    currentPiece := some { type := .I, shape := tetrominoShape .I, color := tetrominoColor .I,
                           x := 3, y := 0, rotation := 0 }
    nextPieces := [.T, .S, .Z]
    holdPiece := none
    canHold := true
    score := 0
    level := 1
    lines := 0
    combo := 0
    gameMode := .normal
    isPlaying := true
    isPaused := false
    isGameOver := false
    dropTimer := 0
    lockTimer := 0
    bag := [.L, .J]
    randIdx := 0
    stats := { piecesPlaced := 0, tSpins := 0, maxCombo := 0 } }

/-- A row with only column 0 empty. -/
def almostFullRow : Row := [0, 1, 1, 1, 1, 1, 1, 1, 1, 1]

/-- Board whose bottom four rows lack only column 0. -/
def comboBoard : Board := List.replicate 16 emptyRow ++ List.replicate 4 almostFullRow

/-- The I piece rotated to its vertical orientation (column 2 filled). -/
def verticalI : List (List Nat) := [[0,0,1,0], [0,0,1,0], [0,0,1,0], [0,0,1,0]]

/-- The vertical I positioned over the open column of `comboBoard`. -/
def comboPiece : Piece :=
  { type := .I, shape := verticalI, color := tetrominoColor .I,
    x := -2, y := 16, rotation := 1 }

/-- Mid-game state about to clear a Tetris: vertical I over the open
column, level 3, 25 lines, combo counter 1 from the previous lock. -/
def comboState : GameState :=
  { baseState with
    board := comboBoard
    currentPiece := some comboPiece
    score := 1000
    level := 3
    lines := 25
    combo := 1
    stats := { piecesPlaced := 5, tSpins := 0, maxCombo := 1 } }

/-- `comboState` after `lockPiece` has written the piece and bumped the
pieces-placed counter, just before its line clear. -/
def comboLockedState : GameState :=
  { comboState with
    board := placePiece comboState.board comboPiece
    stats := { comboState.stats with piecesPlaced := comboState.stats.piecesPlaced + 1 } }

/-- Board blocking all four diagonal neighbours of the cell `(5, 6)` (the
centre of a T piece anchored at `(4, 5)`) while leaving the cells around
the anchor itself empty: cells `(4, 5)`, `(6, 5)`, `(4, 7)`, `(6, 7)` hold
garbage. -/
def tSpinBoard : Board :=
  List.replicate 5 emptyRow ++
    [[0,0,0,0,8,0,8,0,0,0]] ++
    [emptyRow] ++
    [[0,0,0,0,8,0,8,0,0,0]] ++
    List.replicate 12 emptyRow

/-- A T piece anchored at `(4, 5)` on `tSpinBoard`. -/
def tSpinState : GameState :=
  { baseState with
    board := tSpinBoard
    currentPiece := some { type := .T, shape := tetrominoShape .T, color := tetrominoColor .T,
                           x := 4, y := 5, rotation := 0 } }

/-! ## Structural effect lemmas shared by several proofs -/

theorem checkTSpin_fields (s : GameState) :
    (checkTSpin s).2.currentPiece = s.currentPiece ∧
    (checkTSpin s).2.board = s.board ∧
    (checkTSpin s).2.isPaused = s.isPaused ∧
    (checkTSpin s).2.lockTimer = s.lockTimer ∧
    (checkTSpin s).2.score = s.score := by
  rw [checkTSpin]
  cases h : s.currentPiece with
  | none => simp [h]
  | some p =>
    by_cases ht : p.type ≠ PieceType.T
    · simp [ht, h]
    · simp only [ht, if_false]
      split
      · simp [h]
      · simp [h]

theorem spawnPiece_fields (R : Nat → Nat) (s : GameState) :
    (spawnPiece R s).score = s.score ∧ (spawnPiece R s).combo = s.combo ∧
    (spawnPiece R s).lines = s.lines ∧ (spawnPiece R s).level = s.level ∧
    (spawnPiece R s).stats = s.stats ∧ (spawnPiece R s).board = s.board ∧
    (spawnPiece R s).holdPiece = s.holdPiece ∧
    (spawnPiece R s).isPaused = s.isPaused := by
  rw [spawnPiece]
  split
  · exact ⟨rfl, rfl, rfl, rfl, rfl, rfl, rfl, rfl⟩
  · exact ⟨rfl, rfl, rfl, rfl, rfl, rfl, rfl, rfl⟩

theorem clearLinesState_fields (s : GameState) :
    (clearLinesState s).2.score = s.score ∧ (clearLinesState s).2.combo = s.combo ∧
    (clearLinesState s).2.currentPiece = s.currentPiece ∧
    (clearLinesState s).2.stats = s.stats := by
  rw [clearLinesState]
  split
  · exact ⟨rfl, rfl, rfl, rfl⟩
  · exact ⟨rfl, rfl, rfl, rfl⟩

theorem updateScore_score (s : GameState) (n : Nat) :
    (updateScore s n).score =
      s.score + (lineClearBasePoints n * s.level +
        (if 0 < s.combo then 50 * s.combo else 0)) := by
  rw [updateScore]
  by_cases hc : 0 < s.combo
  · simp [hc]
  · simp [hc]

theorem updateScore_fields (s : GameState) (n : Nat) :
    (updateScore s n).combo = s.combo ∧ (updateScore s n).level = s.level ∧
    (updateScore s n).stats = s.stats ∧ (updateScore s n).lines = s.lines :=
  ⟨rfl, rfl, rfl, rfl⟩

/-! ## C3: T-spin corner detection -/

/-- The T-spin corner test as the specification words it (spec-side
definition, for comparison with the code's `checkTSpin`): the four
diagonal neighbours of the piece's rotation centre, the centre cell
`(x+1, y+1)` of the T's 3×3 bounding box — that is, the cells `(x, y)`,
`(x+2, y)`, `(x, y+2)`, `(x+2, y+2)`. -/
def specTSpinBlockedCount (b : Board) (x y : Int) : Nat :=
  ([(x, y), (x + 2, y), (x, y + 2), (x + 2, y + 2)] :
    List (Int × Int)).countP (cornerBlocked b)

/-- **C3 (counterexample)**: with a T piece anchored at `(4, 5)` on
`tSpinBoard`, all four diagonal neighbours of the rotation centre are
blocked (so the claim classifies a T-spin), yet `checkTSpin` returns
`false` and does not increment the T-spin counter — the code tests the
diagonal neighbours of the top-left anchor `(x, y)`, not of the centre
`(x+1, y+1)`. -/
theorem checkTSpin_center_cex :
    3 ≤ specTSpinBlockedCount tSpinState.board 4 5 ∧
    (checkTSpin tSpinState).1 = false ∧
    (checkTSpin tSpinState).2.stats.tSpins = tSpinState.stats.tSpins := by
  refine ⟨by decide, by decide, by decide⟩

/-- **C3 (amended)**: for an active T piece, `checkTSpin` classifies a
T-spin, and increments the T-spin counter, exactly when at least 3 of the
four diagonal neighbours of the piece's top-left anchor `(x, y)` — not of
the 3×3-box centre — are blocked (off a side edge, below the floor, or
occupied); the board and piece are untouched. -/
theorem checkTSpin_anchor_corners (s : GameState) (p : Piece)
    (hp : s.currentPiece = some p) (ht : p.type = .T) :
    ((checkTSpin s).1 = true ↔ 3 ≤ anchorBlockedCount s.board p.x p.y) ∧
    (checkTSpin s).2.stats.tSpins =
      s.stats.tSpins + (if 3 ≤ anchorBlockedCount s.board p.x p.y then 1 else 0) ∧
    (checkTSpin s).2.board = s.board ∧
    (checkTSpin s).2.currentPiece = s.currentPiece := by
  rw [checkTSpin, hp]
  have ht' : ¬ p.type ≠ PieceType.T := by simp [ht]
  simp only [ht', if_false]
  by_cases hcnt : 3 ≤ anchorBlockedCount s.board p.x p.y
  · simp [hcnt, hp]
  · simp [hcnt, hp]

/-- A T piece resting on the floor of an empty board. -/
def tFloorPiece : Piece :=
  { type := .T, shape := tetrominoShape .T, color := tetrominoColor .T,
    x := 3, y := 17, rotation := 0 }

/-- See `tFloorPiece`. -/
def tFloorState : GameState :=
  { baseState with
    currentPiece := some tFloorPiece }

/-- Witness for C3's amended theorem at `tFloorState`: only the two
below-floor corners are blocked, hence no T-spin. -/
theorem checkTSpin_anchor_corners_witness :
    (((checkTSpin tFloorState).1 = true) ↔
      3 ≤ anchorBlockedCount tFloorState.board tFloorPiece.x tFloorPiece.y) ∧
    (checkTSpin tFloorState).2.stats.tSpins =
      tFloorState.stats.tSpins +
        (if 3 ≤ anchorBlockedCount tFloorState.board tFloorPiece.x tFloorPiece.y
         then 1 else 0) ∧
    (checkTSpin tFloorState).2.board = tFloorState.board ∧
    (checkTSpin tFloorState).2.currentPiece = tFloorState.currentPiece :=
  checkTSpin_anchor_corners tFloorState tFloorPiece rfl rfl

/-! ## C5: four rotations restore the piece -/

/-- The piece update applied by a successful rotation: new shape, rotation
index advanced by `(index + (cw ? 1 : 3)) % 4`; position untouched in the
in-place (kick-free) case. -/
def rotatedPiece (p : Piece) (cw : Bool) : Piece :=
  { p with
    shape := rotateMatrix p.shape cw
    rotation := (p.rotation + (if cw then 1 else 3)) % 4 }

theorem rotate_inplace (s : GameState) (p : Piece) (cw : Bool)
    (hp : s.currentPiece = some p) (hpause : s.isPaused = false)
    (hv : isValidPosition s.board p.x p.y (rotateMatrix p.shape cw) = true) :
    (rotate s cw).1 = true ∧
    (rotate s cw).2.currentPiece = some (rotatedPiece p cw) ∧
    (rotate s cw).2.board = s.board ∧
    (rotate s cw).2.isPaused = false := by
  have key : rotate s cw = (true, (checkTSpin { s with
      currentPiece := some (rotatedPiece p cw)
      lockTimer := 0 }).2) := by
    rw [rotate, hp, hpause]
    simp only [Bool.false_eq_true, if_false, hv, if_true]
    rfl
  have hcf := checkTSpin_fields { s with
    currentPiece := some (rotatedPiece p cw)
    lockTimer := 0 }
  rw [key]
  exact ⟨rfl, hcf.1, hcf.2.1, by rw [hcf.2.2.1]; exact hpause⟩

theorem rotate_rotation_update (s : GameState) (p : Piece) (cw : Bool) (q : Piece)
    (hp : s.currentPiece = some p) (hs : (rotate s cw).1 = true)
    (hq : (rotate s cw).2.currentPiece = some q) :
    q.rotation = (p.rotation + (if cw then 1 else 3)) % 4 := by
  rw [rotate, hp] at hs hq
  cases hps : s.isPaused with
  | true =>
    rw [hps] at hs
    simp at hs
  | false =>
    rw [hps] at hs hq
    simp only [Bool.false_eq_true, if_false] at hs hq
    by_cases hv : isValidPosition s.board p.x p.y (rotateMatrix p.shape cw) = true
    · rw [if_pos hv] at hq
      rw [(checkTSpin_fields _).1] at hq
      have h := Option.some.inj hq
      subst h
      rfl
    · rw [if_neg hv] at hs hq
      cases hfind : (getWallKicks p.type p.rotation cw).find? (fun kick =>
          isValidPosition s.board (p.x + kick.1) (p.y + kick.2)
            (rotateMatrix p.shape cw)) with
      | none =>
        rw [hfind] at hs
        simp at hs
      | some kick =>
        rw [hfind] at hq
        rw [(checkTSpin_fields _).1] at hq
        have h := Option.some.inj hq
        subst h
        rfl

/-- **C5**: (1) four 90°-rotations of any square shape matrix, clockwise
or counter-clockwise, give back the original matrix; (2) any successful
rotation updates the rotation index to `(index + (cw ? 1 : 3)) % 4`;
(3) four successful in-place rotations (all four rotated shapes valid at
the unchanged position, so no kicks apply) restore the piece's original
shape and rotation index. -/
theorem rotate_four_cycle :
    (∀ (m : List (List Nat)) (cw : Bool), (∀ r ∈ m, r.length = m.length) →
      rotateMatrix (rotateMatrix (rotateMatrix (rotateMatrix m cw) cw) cw) cw = m) ∧
    (∀ (s : GameState) (p : Piece) (cw : Bool) (q : Piece),
      s.currentPiece = some p → (rotate s cw).1 = true →
      (rotate s cw).2.currentPiece = some q →
      q.rotation = (p.rotation + (if cw then 1 else 3)) % 4) ∧
    (∀ (s : GameState) (p : Piece) (cw : Bool), s.currentPiece = some p →
      s.isPaused = false → (∀ r ∈ p.shape, r.length = p.shape.length) →
      p.rotation < 4 →
      isValidPosition s.board p.x p.y (rotateMatrix p.shape cw) = true →
      isValidPosition s.board p.x p.y (rotateMatrix (rotateMatrix p.shape cw) cw) = true →
      isValidPosition s.board p.x p.y
        (rotateMatrix (rotateMatrix (rotateMatrix p.shape cw) cw) cw) = true →
      isValidPosition s.board p.x p.y
        (rotateMatrix (rotateMatrix (rotateMatrix (rotateMatrix p.shape cw) cw) cw) cw)
        = true →
      (rotate s cw).1 = true ∧
      (rotate (rotate s cw).2 cw).1 = true ∧
      (rotate (rotate (rotate s cw).2 cw).2 cw).1 = true ∧
      (rotate (rotate (rotate (rotate s cw).2 cw).2 cw).2 cw).1 = true ∧
      ∃ q, (rotate (rotate (rotate (rotate s cw).2 cw).2 cw).2 cw).2.currentPiece = some q ∧
        q.shape = p.shape ∧ q.rotation = p.rotation) := by
  refine ⟨rotateMatrix_four, rotate_rotation_update, ?_⟩
  intro s p cw hp hpause hsq hrot h1 h2 h3 h4
  obtain ⟨a1, b1, c1, d1⟩ := rotate_inplace s p cw hp hpause h1
  obtain ⟨a2, b2, c2, d2⟩ := rotate_inplace (rotate s cw).2 (rotatedPiece p cw) cw b1 d1
    (by rw [c1]; exact h2)
  obtain ⟨a3, b3, c3, d3⟩ := rotate_inplace (rotate (rotate s cw).2 cw).2
    (rotatedPiece (rotatedPiece p cw) cw) cw b2 d2 (by rw [c2, c1]; exact h3)
  obtain ⟨a4, b4, c4, d4⟩ :=
    rotate_inplace (rotate (rotate (rotate s cw).2 cw).2 cw).2
      (rotatedPiece (rotatedPiece (rotatedPiece p cw) cw) cw) cw b3 d3
      (by rw [c3, c2, c1]; exact h4)
  refine ⟨a1, a2, a3, a4,
    rotatedPiece (rotatedPiece (rotatedPiece (rotatedPiece p cw) cw) cw) cw, b4, ?_, ?_⟩
  · show rotateMatrix (rotateMatrix (rotateMatrix (rotateMatrix p.shape cw) cw) cw) cw
      = p.shape
    exact rotateMatrix_four p.shape cw hsq
  · show (((((p.rotation + (if cw then 1 else 3)) % 4 + (if cw then 1 else 3)) % 4 +
      (if cw then 1 else 3)) % 4 + (if cw then 1 else 3)) % 4) = p.rotation
    cases cw with
    | true =>
      simp only [if_true]
      omega
    | false =>
      simp only [Bool.false_eq_true, if_false]
      omega

/-- A T piece in free air at `(3, 3)` on the empty board. -/
def tAirPiece : Piece :=
  { type := .T, shape := tetrominoShape .T, color := tetrominoColor .T,
    x := 3, y := 3, rotation := 0 }

/-- See `tAirPiece`. -/
def tAirState : GameState :=
  { baseState with
    currentPiece := some tAirPiece }

/-- Witness for C5 at `tAirState`: all four clockwise rotations are valid
in place and the piece returns to its original shape and rotation. -/
theorem rotate_four_cycle_witness :
    (rotate tAirState true).1 = true ∧
    (rotate (rotate tAirState true).2 true).1 = true ∧
    (rotate (rotate (rotate tAirState true).2 true).2 true).1 = true ∧
    (rotate (rotate (rotate (rotate tAirState true).2 true).2 true).2 true).1 = true ∧
    ∃ q, (rotate (rotate (rotate (rotate tAirState true).2 true).2 true).2
        true).2.currentPiece = some q ∧
      q.shape = tAirPiece.shape ∧ q.rotation = tAirPiece.rotation :=
  rotate_four_cycle.2.2 tAirState tAirPiece true rfl rfl (by decide) (by decide)
    (by decide) (by decide) (by decide) (by decide)

/-! ## C2: lock-event scoring -/

/-- **C2 (counterexample)**: locking the vertical I of `comboState` clears
4 lines at level 3 with the combo counter reaching 2 after its increment,
yet the score grows by `2450 = 800*3 + 50*1`, not the claimed
`2500 = 800*3 + 50*2`: `lockPiece` runs `updateScore` (whose combo bonus
reads `this.combo`) before `this.combo++`. -/
theorem lockPiece_combo_bonus_cex :
    (lockPiece R0 comboState).score = comboState.score + 2450 ∧
    (lockPiece R0 comboState).combo = 2 ∧
    comboState.level = 3 ∧
    (lockPiece R0 comboState).level = 3 ∧
    (clearLinesState comboLockedState).1 = 4 ∧
    (clearLinesState comboLockedState).2.level = 3 ∧
    comboState.combo + 1 = 2 ∧
    (2450 : Nat) ≠ 800 * 3 + 50 * 2 := by
  refine ⟨by decide, by decide, rfl, by decide, by decide, by decide, rfl, by decide⟩

/-- **C2 (amended)**: on every lock event clearing `n > 0` lines — with
`L` the level in effect when the score update runs (after `clearLines`'s
level recalculation) and the combo counter reaching `c = combo + 1` after
its increment — the score gained from line clears is
`base(n) * L + 50 * (c - 1)`, the bonus using the pre-increment counter;
in particular clearing 4 lines at level 3 with the counter reaching 2 adds
`800*3 + 50*1 = 2450`. -/
theorem lockPiece_score_formula (R : Nat → Nat) (s : GameState) (p : Piece)
    (n : Nat) (s2 : GameState) (hp : s.currentPiece = some p)
    (hclear : clearLinesState { s with
        currentPiece := some p
        board := placePiece s.board p
        stats := { s.stats with piecesPlaced := s.stats.piecesPlaced + 1 } } = (n, s2))
    (hn : 0 < n) :
    (lockPiece R s).score =
      s.score + (lineClearBasePoints n * s2.level + 50 * (s.combo + 1 - 1)) ∧
    (lockPiece R s).combo = s.combo + 1 := by
  have hfields := clearLinesState_fields { s with
    currentPiece := some p
    board := placePiece s.board p
    stats := { s.stats with piecesPlaced := s.stats.piecesPlaced + 1 } }
  rw [hclear] at hfields
  have hscore2 : s2.score = s.score := hfields.1
  have hcombo2 : s2.combo = s.combo := hfields.2.1
  rw [lockPiece, hp]
  dsimp only
  dsimp only at hclear
  rw [hclear]
  dsimp only
  rw [if_pos hn]
  have hsp := spawnPiece_fields R { updateScore s2 n with
    combo := (updateScore s2 n).combo + 1
    stats := { (updateScore s2 n).stats with
      maxCombo := max (updateScore s2 n).stats.maxCombo ((updateScore s2 n).combo + 1) } }
  rw [hsp.1, hsp.2.1]
  constructor
  · show (updateScore s2 n).score = _
    rw [updateScore_score, hscore2, hcombo2]
    rcases Nat.eq_zero_or_pos s.combo with h0 | hpos
    · rw [h0]
      simp
    · rw [if_pos hpos]
      omega
  · show (updateScore s2 n).combo + 1 = s.combo + 1
    rw [(updateScore_fields s2 n).1, hcombo2]

/-- Witness for C2's amended formula at `comboState` (4 lines cleared,
level 3, combo reaching 2, gain `800*3 + 50*1`). -/
theorem lockPiece_score_formula_witness :
    (lockPiece R0 comboState).score =
      comboState.score + (lineClearBasePoints (clearLinesState comboLockedState).1 *
        (clearLinesState comboLockedState).2.level + 50 * (comboState.combo + 1 - 1)) ∧
    (lockPiece R0 comboState).combo = comboState.combo + 1 :=
  lockPiece_score_formula R0 comboState comboPiece
    (clearLinesState comboLockedState).1 (clearLinesState comboLockedState).2
    rfl rfl (by decide)

/-! ## C6: bag randomizer -/

/-- A sequence of `n` consecutive bag draws, threading the bag and the
random-call counter exactly as repeated `getNextFromBag()` calls do. -/
def draws (R : Nat → Nat) : Nat → List PieceType → Nat →
    List PieceType × List PieceType × Nat
  | 0, bag, k => ([], bag, k)
  | n + 1, bag, k =>
    ((getNextFromBag R bag k).1 ::
      (draws R n (getNextFromBag R bag k).2.1 (getNextFromBag R bag k).2.2).1,
     (draws R n (getNextFromBag R bag k).2.1 (getNextFromBag R bag k).2.2).2)

theorem draws_succ (R : Nat → Nat) (n : Nat) (bag : List PieceType) (k : Nat) :
    draws R (n + 1) bag k =
      ((getNextFromBag R bag k).1 ::
        (draws R n (getNextFromBag R bag k).2.1 (getNextFromBag R bag k).2.2).1,
       (draws R n (getNextFromBag R bag k).2.1 (getNextFromBag R bag k).2.2).2) := rfl

theorem swapAt_length (l : List PieceType) (i j : Nat) :
    (swapAt l i j).length = l.length := by
  simp [swapAt]

theorem set_extract_perm {α : Type} (d a : α) :
    ∀ (t : List α) (m : Nat), m < t.length →
      List.Perm (t.getD m d :: t.set m a) (a :: t) := by
  intro t
  induction t with
  | nil =>
    intro m h
    simp at h
  | cons b t' ih =>
    intro m h
    cases m with
    | zero => exact List.Perm.swap a b t'
    | succ m' =>
      have h' : m' < t'.length := by simpa using h
      have ihm := ih m' h'
      show List.Perm (t'.getD m' d :: b :: t'.set m' a) (a :: b :: t')
      exact ((List.Perm.swap b (t'.getD m' d) (t'.set m' a)).trans
        (List.Perm.cons b ihm)).trans (List.Perm.swap a b t')

theorem swapAt_perm : ∀ (l : List PieceType) (i j : Nat), i < l.length →
    j < l.length → List.Perm (swapAt l i j) l := by
  intro l
  induction l with
  | nil =>
    intro i j hi
    simp at hi
  | cons b t ih =>
    intro i j hi hj
    cases i with
    | zero =>
      cases j with
      | zero => exact List.Perm.refl (b :: t)
      | succ m =>
        have hm : m < t.length := by simpa using hj
        exact set_extract_perm PieceType.I b t m hm
    | succ n =>
      cases j with
      | zero =>
        have hn : n < t.length := by simpa using hi
        exact set_extract_perm PieceType.I b t n hn
      | succ m =>
        have hn : n < t.length := by simpa using hi
        have hm : m < t.length := by simpa using hj
        exact List.Perm.cons b (ih n m hn hm)

theorem shuffleLoop_spec (R : Nat → Nat) : ∀ (i k : Nat) (bag : List PieceType),
    i < bag.length →
    List.Perm (shuffleLoop R k bag i).1 bag ∧ (shuffleLoop R k bag i).2 = k + i := by
  intro i
  induction i with
  | zero =>
    intro k bag _
    exact ⟨List.Perm.refl bag, rfl⟩
  | succ m ih =>
    intro k bag h
    have hj : R k % (m + 2) < bag.length :=
      lt_of_lt_of_le (Nat.mod_lt _ (by omega)) (by omega)
    have hswap := swapAt_perm bag (m + 1) (R k % (m + 2)) h hj
    have hlen : m < (swapAt bag (m + 1) (R k % (m + 2))).length := by
      rw [swapAt_length]
      omega
    obtain ⟨hperm, hk⟩ := ih (k + 1) _ hlen
    refine ⟨hperm.trans hswap, ?_⟩
    show (shuffleLoop R (k + 1) (swapAt bag (m + 1) (R k % (m + 2))) m).2 = k + (m + 1)
    rw [hk]
    omega

theorem draws_of_length (R : Nat → Nat) : ∀ (n : Nat) (bag : List PieceType) (k : Nat),
    bag.length = n → draws R n bag k = (bag.reverse, [], k) := by
  intro n
  induction n with
  | zero =>
    intro bag k h
    rw [List.length_eq_zero] at h
    subst h
    rfl
  | succ m ih =>
    intro bag k h
    rcases List.eq_nil_or_concat bag with rfl | ⟨l, a, rfl⟩
    · simp at h
    · simp only [List.concat_eq_append] at h ⊢
      have hl : l.length = m := by
        rw [List.length_append, List.length_singleton] at h
        omega
      have hget : getNextFromBag R (l ++ [a]) k = (a, l, k) := by
        rw [getNextFromBag]
        have hne : (l ++ [a]).isEmpty = false := by
          cases l <;> simp [List.isEmpty]
        rw [hne]
        simp [List.getLastD_concat, List.dropLast_concat]
      rw [draws_succ, hget]
      dsimp only
      rw [ih l k hl]
      simp [List.reverse_append]

/-- **C6**: for every random stream, the 7 consecutive draws starting at a
bag boundary (the working bag empty, so a refill occurs) are a permutation
of the 7 canonical types — each type exactly once — the bag is exactly
exhausted at the next boundary, and only the one refill consumed shuffle
randomness (6 `Math.random()` calls). -/
theorem bag_seven_draws (R : Nat → Nat) (k : Nat) :
    List.Perm (draws R 7 [] k).1 canonicalBag ∧
    (∀ t : PieceType, (draws R 7 [] k).1.count t = 1) ∧
    (draws R 7 [] k).2.1 = [] ∧
    (draws R 7 [] k).2.2 = k + 6 := by
  obtain ⟨hperm, hk⟩ := shuffleLoop_spec R 6 k canonicalBag (by decide)
  have hlen : (shuffleLoop R k canonicalBag 6).1.length = 7 := by
    rw [hperm.length_eq]
    rfl
  have hget : getNextFromBag R [] k =
      ((shuffleLoop R k canonicalBag 6).1.getLastD .I,
       (shuffleLoop R k canonicalBag 6).1.dropLast, k + 6) := by
    rw [getNextFromBag]
    show ((shuffleLoop R k canonicalBag 6).1.getLastD .I,
      (shuffleLoop R k canonicalBag 6).1.dropLast, (shuffleLoop R k canonicalBag 6).2) = _
    rw [hk]
  have hrev : (shuffleLoop R k canonicalBag 6).1.getLastD .I ::
      (shuffleLoop R k canonicalBag 6).1.dropLast.reverse =
      (shuffleLoop R k canonicalBag 6).1.reverse := by
    rcases List.eq_nil_or_concat (shuffleLoop R k canonicalBag 6).1 with he | ⟨l, a, he⟩
    · rw [he] at hlen
      simp at hlen
    · rw [he]
      simp [List.getLastD_concat, List.dropLast_concat, List.reverse_append]
  have hd7 : draws R 7 [] k =
      ((shuffleLoop R k canonicalBag 6).1.getLastD .I ::
        (shuffleLoop R k canonicalBag 6).1.dropLast.reverse, [], k + 6) := by
    rw [show (7 : Nat) = 6 + 1 from rfl, draws_succ, hget]
    dsimp only
    rw [draws_of_length R 6 (shuffleLoop R k canonicalBag 6).1.dropLast (k + 6)
      (by rw [List.length_dropLast, hlen])]
  have hpermDraws : List.Perm (draws R 7 [] k).1 canonicalBag := by
    rw [hd7]
    show List.Perm ((shuffleLoop R k canonicalBag 6).1.getLastD .I ::
      (shuffleLoop R k canonicalBag 6).1.dropLast.reverse) canonicalBag
    rw [hrev]
    exact (List.reverse_perm _).trans hperm
  refine ⟨hpermDraws, ?_, by rw [hd7], by rw [hd7]⟩
  intro t
  rw [hpermDraws.count_eq]
  cases t <;> rfl

/-! ## C7: hard drop -/

theorem hardDropLoop_le (b : Board) (x : Int) (sh : List (List Nat)) :
    ∀ (fuel : Nat) (y : Int), hardDropLoop b x sh y fuel ≤ fuel := by
  intro fuel
  induction fuel with
  | zero => intro y; exact Nat.le_refl 0
  | succ f ih =>
    intro y
    rw [hardDropLoop]
    split
    · exact Nat.succ_le_succ (ih (y + 1))
    · exact Nat.zero_le _

theorem hardDropLoop_valid (b : Board) (x : Int) (sh : List (List Nat)) :
    ∀ (fuel : Nat) (y : Int) (i : Nat), 1 ≤ i → i ≤ hardDropLoop b x sh y fuel →
      isValidPosition b x (y + i) sh = true := by
  intro fuel
  induction fuel with
  | zero =>
    intro y i h1 h2
    rw [hardDropLoop] at h2
    omega
  | succ f ih =>
    intro y i h1 h2
    rw [hardDropLoop] at h2
    by_cases hv : isValidPosition b x (y + 1) sh = true
    · rw [if_pos hv] at h2
      cases i with
      | zero => omega
      | succ i' =>
        cases Nat.eq_zero_or_pos i' with
        | inl h0 =>
          subst h0
          simpa using hv
        | inr hpos =>
          have := ih (y + 1) i' hpos (by omega)
          have harith : y + 1 + (i' : Int) = y + (i' + 1 : Nat) := by
            push_cast
            ring
          rwa [harith] at this
    · rw [if_neg hv] at h2
      omega

theorem hardDropLoop_stop (b : Board) (x : Int) (sh : List (List Nat)) :
    ∀ (fuel : Nat) (y : Int), hardDropLoop b x sh y fuel < fuel →
      isValidPosition b x (y + hardDropLoop b x sh y fuel + 1) sh = false := by
  intro fuel
  induction fuel with
  | zero =>
    intro y h
    omega
  | succ f ih =>
    intro y h
    rw [hardDropLoop] at h ⊢
    by_cases hv : isValidPosition b x (y + 1) sh = true
    · rw [if_pos hv] at h ⊢
      have hf : hardDropLoop b x sh (y + 1) f < f := by omega
      have := ih (y + 1) hf
      have harith : y + 1 + (hardDropLoop b x sh (y + 1) f : Int) + 1 =
          y + ((hardDropLoop b x sh (y + 1) f + 1 : Nat) : Int) + 1 := by
        push_cast
        ring
      rwa [harith] at this
    · rw [if_neg hv] at h ⊢
      rw [Bool.not_eq_true] at hv
      simpa using hv

theorem hardDropFuel_lt (b : Board) (x : Int) (sh : List (List Nat)) (y : Int)
    (hfill : ∃ (i j : Nat) (r : List Nat) (v : Nat),
      sh[i]? = some r ∧ r[j]? = some v ∧ v ≠ 0) :
    hardDropLoop b x sh y (hardDropFuel y) < hardDropFuel y := by
  by_contra hge
  have hle := hardDropLoop_le b x sh (hardDropFuel y) y
  have heq : hardDropLoop b x sh y (hardDropFuel y) = hardDropFuel y := by omega
  have hfuelpos : 1 ≤ hardDropFuel y := by
    rw [hardDropFuel]
    omega
  have hvalid := hardDropLoop_valid b x sh (hardDropFuel y) y (hardDropFuel y)
    hfuelpos (by omega)
  obtain ⟨i, j, r, v, hir, hjv, hv⟩ := hfill
  obtain ⟨hB, _⟩ := (isValidPosition_eq_true_iff b x (y + hardDropFuel y) sh).mp
    hvalid i j r v hir hjv hv
  have hlt : ¬ ((boardHeight : Int) ≤ y + (hardDropFuel y : Int) + i) := fun hc =>
    hB (Or.inr (Or.inr hc))
  rw [hardDropFuel] at hlt
  rw [boardHeight] at hlt
  push_cast at hlt
  omega

/-- **C7**: `hardDrop` moves the active piece down by the loop distance
`d`, adds exactly `2 * d` to the score, and immediately locks (no
lock-delay wait — the result is exactly `lockPiece` of the dropped
state); `d` is maximal: every travelled position is valid and the next
one is not.  In particular, hard-dropping the first I piece on the empty
board (`baseState`) travels 18 cells, adds exactly `2 * 18 = 36` points,
makes the pieces-placed counter 1, clears no lines, and ends with no game
over. -/
theorem hardDrop_spec (R : Nat → Nat) (s : GameState) (p : Piece)
    (hp : s.currentPiece = some p) (hpause : s.isPaused = false)
    (hfill : ∃ (i j : Nat) (r : List Nat) (v : Nat),
      p.shape[i]? = some r ∧ r[j]? = some v ∧ v ≠ 0) :
    hardDrop R s = lockPiece R { s with
      currentPiece := some { p with
        y := p.y + hardDropLoop s.board p.x p.shape p.y (hardDropFuel p.y) }
      score := s.score + hardDropLoop s.board p.x p.shape p.y (hardDropFuel p.y) * 2 } ∧
    (∀ i : Nat, 1 ≤ i → i ≤ hardDropLoop s.board p.x p.shape p.y (hardDropFuel p.y) →
      isValidPosition s.board p.x (p.y + i) p.shape = true) ∧
    isValidPosition s.board p.x
      (p.y + hardDropLoop s.board p.x p.shape p.y (hardDropFuel p.y) + 1) p.shape
      = false ∧
    hardDropLoop baseState.board 3 (tetrominoShape .I) 0 (hardDropFuel 0) = 18 ∧
    (hardDrop R0 baseState).score = baseState.score + 18 * 2 ∧
    (hardDrop R0 baseState).stats.piecesPlaced = baseState.stats.piecesPlaced + 1 ∧
    (hardDrop R0 baseState).lines = baseState.lines ∧
    (hardDrop R0 baseState).isGameOver = false := by
  refine ⟨?_, hardDropLoop_valid s.board p.x p.shape (hardDropFuel p.y) p.y, ?_,
    by decide, by decide, by decide, by decide, by decide⟩
  · rw [hardDrop, hp, hpause]
    rfl
  · have harith : p.y + (hardDropLoop s.board p.x p.shape p.y (hardDropFuel p.y) : Int) + 1
        = p.y + hardDropLoop s.board p.x p.shape p.y (hardDropFuel p.y) + 1 := rfl
    exact hardDropLoop_stop s.board p.x p.shape (hardDropFuel p.y) p.y
      (hardDropFuel_lt s.board p.x p.shape p.y hfill)

/-- The piece `baseState` starts with. -/
def baseIPiece : Piece :=
  { type := .I, shape := tetrominoShape .I, color := tetrominoColor .I,
    x := 3, y := 0, rotation := 0 }

/-- `baseState` with its I piece hard-dropped and the distance bonus
added, as produced by the loop in `hardDrop` just before locking. -/
def droppedState : GameState :=
  { baseState with
    currentPiece := some { baseIPiece with
      y := baseIPiece.y +
        (hardDropLoop baseState.board baseIPiece.x baseIPiece.shape baseIPiece.y
          (hardDropFuel baseIPiece.y) : Int) }
    score := baseState.score +
      hardDropLoop baseState.board baseIPiece.x baseIPiece.shape baseIPiece.y
        (hardDropFuel baseIPiece.y) * 2 }

/-- Witness for C7 at `baseState`: the equation to `lockPiece`, plus the
maximality of the 18-cell distance (position 18 valid, 19 not). -/
theorem hardDrop_spec_witness :
    hardDrop R0 baseState = lockPiece R0 droppedState ∧
    isValidPosition baseState.board baseIPiece.x (baseIPiece.y + (18 : Nat))
      baseIPiece.shape = true ∧
    isValidPosition baseState.board baseIPiece.x
      (baseIPiece.y + hardDropLoop baseState.board baseIPiece.x baseIPiece.shape
        baseIPiece.y (hardDropFuel baseIPiece.y) + 1) baseIPiece.shape = false := by
  have h := hardDrop_spec R0 baseState baseIPiece rfl rfl
    ⟨1, 0, [1, 1, 1, 1], 1, rfl, rfl, by decide⟩
  exact ⟨h.1, h.2.1 18 (by decide) (by decide), h.2.2.1⟩

/-! ## C8 and C9: lock-delay resets and downward-move scoring -/

/-- One game-loop frame in which the drop interval elapses and the
automatic descent succeeds: the state is the moved one with the lock
timer zeroed. -/
theorem gameLoopTick_descent (R : Nat → Nat) (s : GameState)
    (hplay : s.isPlaying = true) (hgo : s.isGameOver = false)
    (hpause : s.isPaused = false)
    (hcross : getDropSpeed s * 100 ≤ s.dropTimer + 1667)
    (hmove : (moveDown { s with dropTimer := 0 }).1 = true) :
    gameLoopTick R s = { (moveDown { s with dropTimer := 0 }).2 with lockTimer := 0 } := by
  rw [gameLoopTick]
  dsimp only
  rw [if_neg (show ¬(¬ s.isPlaying = true ∨ s.isGameOver = true) from by
    simp [hplay, hgo])]
  rw [if_neg (show ¬ s.isPaused = true from by simp [hpause])]
  rw [if_pos hcross]
  rw [if_neg (show ¬¬ (moveDown { s with dropTimer := 0 }).1 = true from by
    simp [hmove])]

/-- A state mid-fall with an accumulated lock-delay value: reachable, for
instance, by letting a piece rest on a ledge (lock timer accumulating)
and then swapping it away via `hold` with an occupied slot, which places
the swapped-in piece in free air without resetting the lock timer.  The
drop timer is one frame short of the 800 ms interval. -/
def tickState : GameState :=
  { baseState with
    dropTimer := 78333
    lockTimer := 30000 }

/-- **C8 (counterexample)**: at `tickState` the frame's automatic descent
succeeds, and the game loop then resets the lock-delay timer from 30000
(scaled: 300 ms) to 0 — a lock-delay reset caused by a downward move
(`gameLoop`'s `else { this.lockTimer = 0 }` branch), contradicting the
claim that only lateral or rotational moves reset it. -/
theorem gravity_reset_cex :
    tickState.lockTimer = 30000 ∧
    (moveDown { tickState with dropTimer := 0 }).1 = true ∧
    (gameLoopTick R0 tickState).lockTimer = 0 := by
  exact ⟨rfl, by decide, by decide⟩

/-- **C8 (amended)**: the `moveDown` primitive itself never touches the
lock-delay timer; successful `moveLeft`, `moveRight`, and `rotate`
(in-place or kicked) reset it to 0; however the gravity tick of the game
loop also zeroes the lock timer whenever its automatic descent succeeds,
so a downward move does reset lock delay when performed by the game loop
(soft drops through `Controls` call `moveDown` directly and do not). -/
theorem lockTimer_reset_rules :
    (∀ s : GameState, (moveDown s).2.lockTimer = s.lockTimer) ∧
    (∀ s : GameState, (moveLeft s).1 = true → (moveLeft s).2.lockTimer = 0) ∧
    (∀ s : GameState, (moveRight s).1 = true → (moveRight s).2.lockTimer = 0) ∧
    (∀ (s : GameState) (cw : Bool), (rotate s cw).1 = true →
      (rotate s cw).2.lockTimer = 0) ∧
    (∀ (R : Nat → Nat) (s : GameState), s.isPlaying = true → s.isGameOver = false →
      s.isPaused = false → getDropSpeed s * 100 ≤ s.dropTimer + 1667 →
      (moveDown { s with dropTimer := 0 }).1 = true →
      (gameLoopTick R s).lockTimer = 0) := by
  refine ⟨?_, ?_, ?_, ?_, ?_⟩
  · intro s
    rw [moveDown]
    cases h : s.currentPiece with
    | none => rfl
    | some p =>
      by_cases hps : s.isPaused = true
      · simp [hps]
      · simp only [hps, if_false]
        by_cases hv : isValidPosition s.board p.x (p.y + 1) p.shape = true
        · rw [if_pos hv]
          rfl
        · rw [if_neg hv]
          rfl
  · intro s h
    rw [moveLeft] at h ⊢
    cases hc : s.currentPiece with
    | none =>
      rw [hc] at h
      simp at h
    | some p =>
      rw [hc] at h
      by_cases hps : s.isPaused = true
      · simp [hps] at h
      · simp only [hps, if_false] at h ⊢
        by_cases hv : isValidPosition s.board (p.x - 1) p.y p.shape = true
        · rw [if_pos hv]
          rfl
        · rw [if_neg hv] at h
          simp at h
  · intro s h
    rw [moveRight] at h ⊢
    cases hc : s.currentPiece with
    | none =>
      rw [hc] at h
      simp at h
    | some p =>
      rw [hc] at h
      by_cases hps : s.isPaused = true
      · simp [hps] at h
      · simp only [hps, if_false] at h ⊢
        by_cases hv : isValidPosition s.board (p.x + 1) p.y p.shape = true
        · rw [if_pos hv]
          rfl
        · rw [if_neg hv] at h
          simp at h
  · intro s cw h
    rw [rotate] at h ⊢
    cases hc : s.currentPiece with
    | none =>
      rw [hc] at h
      simp at h
    | some p =>
      rw [hc] at h
      by_cases hps : s.isPaused = true
      · simp [hps] at h
      · simp only [hps, if_false] at h ⊢
        by_cases hv : isValidPosition s.board p.x p.y (rotateMatrix p.shape cw) = true
        · rw [if_pos hv]
          exact (checkTSpin_fields _).2.2.2.1
        · rw [if_neg hv] at h ⊢
          cases hfind : (getWallKicks p.type p.rotation cw).find? (fun kick =>
              isValidPosition s.board (p.x + kick.1) (p.y + kick.2)
                (rotateMatrix p.shape cw)) with
          | none =>
            rw [hfind] at h
            simp at h
          | some kick =>
            exact (checkTSpin_fields _).2.2.2.1
  · intro R s hplay hgo hpause hcross hmove
    rw [gameLoopTick_descent R s hplay hgo hpause hcross hmove]

/-- Witness for C8's amended rules at concrete states: `moveDown` leaves
`tickState`'s lock timer at 30000, a successful `moveLeft` zeroes it, and
the gravity tick zeroes it after its successful descent. -/
theorem lockTimer_reset_rules_witness :
    (moveDown tickState).2.lockTimer = tickState.lockTimer ∧
    (moveLeft tickState).2.lockTimer = 0 ∧
    (gameLoopTick R0 tickState).lockTimer = 0 :=
  ⟨lockTimer_reset_rules.1 tickState,
   lockTimer_reset_rules.2.1 tickState (by decide),
   lockTimer_reset_rules.2.2.2.2 R0 tickState rfl rfl rfl (by decide) (by decide)⟩

/-- **C9**: every successful downward move of the active piece adds
exactly 1 point (`CONFIG.POINTS.SOFT_DROP`), a failed one adds nothing,
and the gravity tick's automatic descent — which calls the same
`moveDown` — therefore also adds 1 point per frame interval while a piece
falls with no player input. -/
theorem moveDown_scores_one :
    (∀ s : GameState, (moveDown s).1 = true → (moveDown s).2.score = s.score + 1) ∧
    (∀ s : GameState, (moveDown s).1 = false → (moveDown s).2.score = s.score) ∧
    (∀ (R : Nat → Nat) (s : GameState), s.isPlaying = true → s.isGameOver = false →
      s.isPaused = false → getDropSpeed s * 100 ≤ s.dropTimer + 1667 →
      (moveDown { s with dropTimer := 0 }).1 = true →
      (gameLoopTick R s).score = s.score + 1) := by
  have hsucc : ∀ s : GameState, (moveDown s).1 = true →
      (moveDown s).2.score = s.score + 1 := by
    intro s h
    rw [moveDown] at h ⊢
    cases hc : s.currentPiece with
    | none =>
      rw [hc] at h
      simp at h
    | some p =>
      rw [hc] at h
      by_cases hps : s.isPaused = true
      · simp [hps] at h
      · simp only [hps, if_false] at h ⊢
        by_cases hv : isValidPosition s.board p.x (p.y + 1) p.shape = true
        · rw [if_pos hv]
          rfl
        · rw [if_neg hv] at h
          simp at h
  refine ⟨hsucc, ?_, ?_⟩
  · intro s h
    rw [moveDown] at h ⊢
    cases hc : s.currentPiece with
    | none => rfl
    | some p =>
      rw [hc] at h
      by_cases hps : s.isPaused = true
      · simp [hps]
      · simp only [hps, if_false] at h ⊢
        by_cases hv : isValidPosition s.board p.x (p.y + 1) p.shape = true
        · rw [if_pos hv] at h
          simp at h
        · rw [if_neg hv]
          rfl
  · intro R s hplay hgo hpause hcross hmove
    rw [gameLoopTick_descent R s hplay hgo hpause hcross hmove]
    show (moveDown { s with dropTimer := 0 }).2.score = s.score + 1
    exact hsucc { s with dropTimer := 0 } hmove

/-- Witness for C9 at `tickState`: the manual soft drop and the gravity
tick each add exactly one point. -/
theorem moveDown_scores_one_witness :
    (moveDown tickState).2.score = tickState.score + 1 ∧
    (gameLoopTick R0 tickState).score = tickState.score + 1 :=
  ⟨moveDown_scores_one.1 tickState (by decide),
   moveDown_scores_one.2.2 R0 tickState rfl rfl rfl (by decide) (by decide)⟩

/-! ## C10: hold with an occupied slot skips the spawn check -/

/-- The piece constructed at the spawn position (both by `spawnPiece` and
by the swap branch of `hold`): horizontally centred, `y = 0`, rotation 0. -/
def spawnPositionPiece (t : PieceType) : Piece :=
  { type := t, shape := tetrominoShape t, color := tetrominoColor t,
    x := ((boardWidth - ((tetrominoShape t).headD []).length) / 2 : Nat),
    y := 0, rotation := 0 }

/-- Board whose cell `(0, 4)` is filled, directly under the top mino of a
T piece at its spawn position. -/
def overlapBoard : Board := [[0, 0, 0, 0, 7, 0, 0, 0, 0, 0]] ++ List.replicate 19 emptyRow

/-- An S piece midway down the board. -/
def sMidPiece : Piece :=
  { type := .S, shape := tetrominoShape .S, color := tetrominoColor .S,
    x := 3, y := 10, rotation := 0 }

/-- State with a T stored in the hold slot, an active S piece, and
`overlapBoard` blocking the T's spawn cells. -/
def overlapState : GameState :=
  { baseState with
    board := overlapBoard
    holdPiece := some .T
    currentPiece := some sMidPiece }

/-- **C10**: when `hold` is invoked with the slot occupied (and holding
allowed, not paused), the swapped-in piece is placed at the spawn position
with no validity check and no game-over transition — the whole effect is
the pure swap — so the resulting active piece may overlap filled cells, as
at `overlapState`; only the initial hold (empty slot) goes through
`spawnPiece`, which does run the spawn-validity/game-over check. -/
theorem hold_swap_unchecked :
    (∀ (R : Nat → Nat) (s : GameState) (p : Piece) (h : PieceType),
      s.currentPiece = some p → s.canHold = true → s.isPaused = false →
      s.holdPiece = some h →
      hold R s = { s with
        holdPiece := some p.type
        currentPiece := some (spawnPositionPiece h)
        canHold := false }) ∧
    (∀ (R : Nat → Nat) (s : GameState) (p : Piece),
      s.currentPiece = some p → s.canHold = true → s.isPaused = false →
      s.holdPiece = none →
      hold R s =
        { spawnPiece R { s with holdPiece := some p.type } with canHold := false }) ∧
    (hold R0 overlapState).isGameOver = false ∧
    (hold R0 overlapState).currentPiece = some (spawnPositionPiece .T) ∧
    isValidPosition overlapState.board (spawnPositionPiece .T).x
      (spawnPositionPiece .T).y (spawnPositionPiece .T).shape = false := by
  refine ⟨?_, ?_, by decide, by decide, by decide⟩
  · intro R s p h hp hch hpause hh
    rw [hold, hp]
    dsimp only
    rw [if_neg (show ¬(¬ s.canHold = true ∨ s.isPaused = true) from by
      simp [hch, hpause])]
    rw [hh]
    rfl
  · intro R s p hp hch hpause hh
    rw [hold, hp]
    dsimp only
    rw [if_neg (show ¬(¬ s.canHold = true ∨ s.isPaused = true) from by
      simp [hch, hpause])]
    rw [hh]

/-- Witness for C10 at `overlapState`: the swap places the T at the spawn
position even though that position overlaps a filled cell. -/
theorem hold_swap_unchecked_witness :
    hold R0 overlapState = { overlapState with
      holdPiece := some sMidPiece.type
      currentPiece := some (spawnPositionPiece .T)
      canHold := false } :=
  hold_swap_unchecked.1 R0 overlapState sMidPiece .T rfl rfl rfl rfl

end Jetrix
